import Mathlib

/-!
The `basic-ddo-add` action of fil-sp-toolbox.

A shallow embedding of `basicDdoPieceAdd.Action` (`main.go`, lines 85-193) and the
properties of its ingestion pipeline: the size pre-check, the chunked hashing loop with
its mid-stream size check, the 127-byte padding floor, the re-seek, and the single
submission call.

The action talks to collaborators that live outside the repository (the miner API, the
file system, the commitment calculator `commp.Calc`, `commcid`, `padreader`).  They are
fields of `Env`: every result they can hand back, errors included, is an input of the
model.  A run is the returned error (or success) together with the trace of the external
calls that were made.

Integers: `fhs.Size()`, `maxPayload` and `time.Now().Unix()` are `int64` and are modelled
by `Int`; `bytesHashed` only ever grows by the non-negative counts `io.CopyN` returns and
is bounded by the length of the file (file offsets are `int64` themselves), so it is a
`Nat` that is cast to `Int` where it is compared with `maxPayload`.
-/

namespace FilSpToolbox

/-- One byte of file content. -/
abbrev Byte := Fin 256

/-- The call sites whose error is returned through `cmn.WrErr(err)`. -/
inductive Stage
  | actorAddress
  | actorSectorSize
  | openFile
  | stat
  | copy
  | padWrite
  | digest
  | toCID
  | seek
  | submission
  deriving DecidableEq, Repr

/-- The errors the action returns, one constructor per `return` statement. -/
inductive Err
  /-- The wrapping `cmn.WrErr(err)` of the error `cause` of the call made at `stage`. -/
  | wrapped (stage : Stage) (cause : String)
  /-- Line 98: "expecting exactly one argument ...". -/
  | argCount
  /-- Line 117: "supplied source file %s appears to be empty". -/
  | emptyFile (fn : String)
  /-- Line 119: "supplied source file %s is %d bytes long, which is over the maximum
  sector payload supported by SP %s". -/
  | tooLong (fn : String) (reported : Int) (spActor : String)
  /-- Line 122: "only regular files supported for the MVP". -/
  | notRegular
  /-- Line 131: the error of the cancelled context, returned as is. -/
  | cancelled (cause : String)
  /-- Line 142: "data supplied via %s is at least %d bytes long, which is over the maximum
  sector payload supported by SP %s". -/
  | midStream (fn : String) (reported : Int) (spActor : String)
  /-- Not an error of the program: the model of the `for` loop ran out of iterations.
  `action_within_budget` shows that the action never returns it. -/
  | loopBudget
  deriving DecidableEq, Repr

/-- What `fh.Stat()` reports: `fhs.Mode().IsRegular()` and `fhs.Size()`. -/
structure FileInfo where
  isRegular : Bool
  size : Int
  deriving DecidableEq, Repr

/-- An opened file.  The content is what reading the handle from offset 0 delivers; what
`Stat` reports is independent of it (the size can be misreported or stale).  `readFault`
is an absolute offset at which a read fails with the given error instead of delivering
data or end-of-file. -/
structure File where
  content : List Byte
  statResult : Except String FileInfo
  readFault : Option (Nat × String)
  seekFault : Option String

/-- The `piece.PieceDealInfo` the action assembles (lines 171-181). -/
structure PieceDealInfo where
  startEpoch : Int
  endEpoch : Int
  keepUnsealed : Bool
  cid : String
  size : Nat
  deriving DecidableEq, Repr

/-- The collaborators of one run. -/
structure Env where
  /-- The answer of `spAPI.ActorAddress`. -/
  actorAddress : Except String String
  /-- The answer of `spAPI.ActorSectorSize` (a `uint64`). -/
  actorSectorSize : String → Except String Nat
  /-- The positional command-line arguments. -/
  args : List String
  /-- The answer of `os.Open`. -/
  openFile : String → Except String File
  /-- The value of `cctx.Context.Err()` at the top of loop iteration `i` (counted from 0). -/
  ctxErr : Nat → Option String
  /-- The method `commp.Calc.Write`: the error, if any, of writing the second list to a calculator
  that has been written the first list so far. -/
  calcWriteErr : List Byte → List Byte → Option String
  /-- The method `commp.Calc.Digest` as a function of the bytes written to the calculator: the
  commitment and the padded piece size (a `uint64`), or an error. -/
  calcDigest : List Byte → Except String (List Byte × Nat)
  /-- The function `commcid.DataCommitmentV1ToCID`. -/
  toCID : List Byte → Except String String
  /-- The value of `time.Now().Unix()` at line 168. -/
  now : Int
  /-- The call `spAPI.SectorAddPieceToAny(size, reader, deal)`; the reader is given by the bytes
  it yields. -/
  sectorAddPieceToAny : Nat → List Byte → PieceDealInfo → Except String String

/-- The external calls of a run, in program order.  The `io.CopyN` calls of the hashing
loop are not listed one by one: their effect is the calculator content that `digest`
records. -/
inductive Event
  | actorAddress
  | actorSectorSize (spActor : String)
  | openFile (fn : String)
  | stat
  /-- The call `fr32.Digest()`, with the bytes written to the calculator so far and the value of
  `bytesHashed` at the call. -/
  | digest (written : List Byte) (bytesHashed : Nat)
  | toCID (cpHash : List Byte)
  /-- The call `fh.Seek(0, 0)`, with the read offset before the call. -/
  | seek (offsetBefore : Nat)
  /-- The call `padreader.New(fh, size)`, with the content of the file and its read offset when
  the reader is constructed. -/
  | padreaderNew (content : List Byte) (offset : Nat) (size : Nat)
  /-- The call `spAPI.SectorAddPieceToAny(size, reader, deal)`. -/
  | sectorAddPieceToAny (size : Nat) (reader : List Byte) (deal : PieceDealInfo)
  deriving DecidableEq, Repr

/-- A run of the action: what it returns and the external calls it made. -/
structure Run where
  result : Except Err Unit
  trace : List Event

/-- The method `abi.PaddedPieceSize.Unpadded`: `s - (s >> 7)`. -/
def unpadded (s : Nat) : Nat := s - s / 128

/-- Conversion `int64(v)` of a `uint64`. -/
def toInt64 (v : Nat) : Int :=
  if v % 2 ^ 64 < 2 ^ 63 then ((v % 2 ^ 64 : Nat) : Int) else ((v % 2 ^ 64 : Nat) : Int) - 2 ^ 64

/-- Line 112: `maxPayload := int64(filabi.PaddedPieceSize(spSecSize).Unpadded())`. -/
def maxPayloadOf (spSecSize : Nat) : Int := toInt64 (unpadded (spSecSize % 2 ^ 64))

/-- Lines 115-123, the pre-check: `none` when the action goes on to hash. -/
def preCheck (fn spActor : String) (fhs : FileInfo) (maxPayload : Int) : Option Err :=
  if fhs.isRegular then
    if fhs.size = 0 then some (.emptyFile fn)
    else if fhs.size > maxPayload then some (.tooLong fn fhs.size spActor)
    else none
  else some .notRegular

/-- The error part of what `io.CopyN` returns. -/
inductive CopyErr
  | eof
  | other (cause : String)
  deriving DecidableEq, Repr

/-- What one `io.CopyN(fr32, fh, limit)` leaves behind: the count and error it returns,
the bytes written to the calculator so far, and the read offset of the file. -/
structure CopyOut where
  n : Nat
  err : Option CopyErr
  fr32 : List Byte
  offset : Nat

/-- The bytes a copy of at most `limit` bytes reads from offset `off`, and the read
error that ends it early, if any. -/
def readChunk (fh : File) (off limit : Nat) : List Byte × Option String :=
  match fh.readFault with
  | some (k, e) =>
    if k ≤ fh.content.length ∧ k < off + limit then
      (((fh.content.drop off).take limit).take (k - off), some e)
    else ((fh.content.drop off).take limit, none)
  | none => ((fh.content.drop off).take limit, none)

/-- The call `io.CopyN(fr32, fh, limit)`: copy `limit` bytes, or until an error.  The count equals
`limit` exactly when no error is returned, and the error is `io.EOF` when the source ends
before `limit` bytes were copied.  The bytes read are written to the calculator (nothing
is written when nothing was read); a write error ends the copy. -/
def copyN (writeErr : List Byte → List Byte → Option String) (fh : File)
    (fr32 : List Byte) (off limit : Nat) : CopyOut :=
  let rd := readChunk fh off limit
  match (if rd.1 = [] then none else writeErr fr32 rd.1) with
  | some e => ⟨0, some (.other e), fr32, off + rd.1.length⟩
  | none =>
    match rd.2 with
    | some e => ⟨rd.1.length, some (.other e), fr32 ++ rd.1, off + rd.1.length⟩
    | none =>
      if rd.1.length < limit then ⟨rd.1.length, some .eof, fr32 ++ rd.1, off + rd.1.length⟩
      else ⟨rd.1.length, none, fr32 ++ rd.1, off + rd.1.length⟩

/-- How the hashing loop ends: by the `break` at end-of-file, or by a `return`. -/
inductive LoopOut
  | done (fr32 : List Byte) (bytesHashed : Nat) (offset : Nat)
  | failed (e : Err)
  deriving DecidableEq, Repr

/-- Lines 129-144, the hashing loop, started at iteration `iter` with the calculator
content `fr32`, the counter `bytesHashed` and the read offset `off`.  `chunk` is the
third argument of `io.CopyN` (`128<<20` in the program).  The first argument bounds the
number of iterations; `none` means the bound was reached. -/
def hashLoop (env : Env) (fh : File) (fn spActor : String) (fhs : FileInfo)
    (maxPayload : Int) (chunk : Nat) :
    Nat → Nat → List Byte → Nat → Nat → Option LoopOut
  | 0, _, _, _, _ => none
  | budget + 1, iter, fr32, bytesHashed, off =>
    match env.ctxErr iter with
    | some e => some (.failed (.cancelled e))
    | none =>
      let r := copyN env.calcWriteErr fh fr32 off chunk
      match r.err with
      | some .eof => some (.done r.fr32 (bytesHashed + r.n) r.offset)
      | some (.other e) => some (.failed (.wrapped .copy e))
      | none =>
        if ((bytesHashed + r.n : Nat) : Int) > maxPayload then
          some (.failed (.midStream fn fhs.size spActor))
        else hashLoop env fh fn spActor fhs maxPayload chunk budget (iter + 1) r.fr32
          (bytesHashed + r.n) r.offset

/-- The chunk size of the program: `128<<20`. -/
def chunkSize : Nat := 128 * 2 ^ 20

/-- Iterations that are enough for the loop over `fh` to end: every iteration but the
last one consumes a full chunk. -/
def loopBudget (fh : File) (chunk : Nat) : Nat := fh.content.length / chunk + 1

/-- Lines 146-151, the padding floor: the calculator content and `bytesHashed` with which
`fr32.Digest()` is called. -/
def padFloor (env : Env) (fr32 : List Byte) (bytesHashed : Nat) :
    Except Err (List Byte × Nat) :=
  if bytesHashed < 127 then
    match env.calcWriteErr fr32 (List.replicate (127 - bytesHashed) 0) with
    | some e => .error (.wrapped .padWrite e)
    | none => .ok (fr32 ++ List.replicate (127 - bytesHashed) 0, 127)
  else .ok (fr32, bytesHashed)

/-- Smallest power of two that is at least `p`, found by doubling `acc`. -/
def pow2Ceil (p : Nat) : Nat → Nat → Nat
  | 0, acc => acc
  | k + 1, acc => if p ≤ acc then acc else pow2Ceil p k (2 * acc)

/-- The function `padreader.PaddedSize` of the go-padreader library: the payload of the smallest
power-of-two piece that holds `size` bytes, 127 for `size <= 127`. -/
def paddedSize (size : Nat) : Nat :=
  if size ≤ 127 then 127
  else unpadded (pow2Ceil ((size + 126) / 127 * 128) ((size + 126) / 127 * 128) 1)

/-- The bytes yielded by the reader `padreader.New(r, size)` of the go-padreader library,
`io.MultiReader(io.LimitReader(r, size), io.LimitReader(zeroes, PaddedSize(size) - size))`,
for `r` a file with the given content and read offset. -/
def padreaderNew (content : List Byte) (off size : Nat) : List Byte :=
  (content.drop off).take size ++ List.replicate (paddedSize size - size) 0

/-- Lines 168-181: the deal descriptor. -/
def dealInfo (now : Int) (pCID : String) (piecePadSz : Nat) : PieceDealInfo :=
  let startEpoch := Int.tdiv (now - 1667326380) 30 + 2880 * 2
  { startEpoch := startEpoch
    endEpoch := startEpoch + 2880 * 200
    keepUnsealed := false
    cid := pCID
    size := piecePadSz }

/-- The offset `os.File.Seek(offset, whence)` moves to, for a file of length `len` whose
read offset is `cur`: `whence` 0 is relative to the start, 1 to the current offset and
2 to the end. -/
def seekPos (offset : Int) (whence : Nat) (cur len : Nat) : Int :=
  match whence with
  | 0 => offset
  | 1 => cur + offset
  | _ => len + offset

/-- Lines 153-192: from `fr32.Digest()` to the end, after the external calls `pre`, with
the calculator content `fr32`, the counter `bytesHashed` and the read offset `off` that
the hashing left.  The logging and the two `spew.Dump` calls are left out. -/
def finish (env : Env) (fh : File) (pre : List Event) (fr32 : List Byte)
    (bytesHashed off : Nat) : Run :=
  match env.calcDigest fr32 with
  | .error e => ⟨.error (.wrapped .digest e), pre ++ [.digest fr32 bytesHashed]⟩
  | .ok (cpHash, pieceSz) =>
    match env.toCID cpHash with
    | .error e =>
      ⟨.error (.wrapped .toCID e), pre ++ [.digest fr32 bytesHashed, .toCID cpHash]⟩
    | .ok pCID =>
      match fh.seekFault with
      | some e =>
        ⟨.error (.wrapped .seek e),
          pre ++ [.digest fr32 bytesHashed, .toCID cpHash, .seek off]⟩
      | none =>
        let rewound := (seekPos 0 0 off fh.content.length).toNat
        let padRdr := padreaderNew fh.content rewound bytesHashed
        let pdi := dealInfo env.now pCID pieceSz
        let calls := pre ++ [.digest fr32 bytesHashed, .toCID cpHash, .seek off,
          .padreaderNew fh.content rewound bytesHashed,
          .sectorAddPieceToAny (unpadded pieceSz) padRdr pdi]
        match env.sectorAddPieceToAny (unpadded pieceSz) padRdr pdi with
        | .error e => ⟨.error (.wrapped .submission e), calls⟩
        | .ok _ => ⟨.ok (), calls⟩

/-- Lines 112-192: the action once the file is open and `Stat` has answered, with loop
chunk `chunk`. -/
def ingest (env : Env) (spActor : String) (spSecSize : Nat) (fn : String) (fh : File)
    (fhs : FileInfo) (chunk : Nat) (pre : List Event) : Run :=
  let maxPayload := maxPayloadOf spSecSize
  match preCheck fn spActor fhs maxPayload with
  | some e => ⟨.error e, pre⟩
  | none =>
    match hashLoop env fh fn spActor fhs maxPayload chunk (loopBudget fh chunk) 0 [] 0 0 with
    | none => ⟨.error .loopBudget, pre⟩
    | some (.failed e) => ⟨.error e, pre⟩
    | some (.done fr32 bytesRead off) =>
      match padFloor env fr32 bytesRead with
      | .error e => ⟨.error e, pre⟩
      | .ok (fr32Padded, bytesHashed) => finish env fh pre fr32Padded bytesHashed off

/-- Lines 85-193: `basicDdoPieceAdd.Action`. -/
def action (env : Env) : Run :=
  match env.actorAddress with
  | .error e => ⟨.error (.wrapped .actorAddress e), [.actorAddress]⟩
  | .ok spActor =>
    match env.actorSectorSize spActor with
    | .error e =>
      ⟨.error (.wrapped .actorSectorSize e), [.actorAddress, .actorSectorSize spActor]⟩
    | .ok spSecSize =>
      match env.args with
      | [fn] =>
        match env.openFile fn with
        | .error e =>
          ⟨.error (.wrapped .openFile e),
            [.actorAddress, .actorSectorSize spActor, .openFile fn]⟩
        | .ok fh =>
          match fh.statResult with
          | .error e =>
            ⟨.error (.wrapped .stat e),
              [.actorAddress, .actorSectorSize spActor, .openFile fn, .stat]⟩
          | .ok fhs =>
            ingest env spActor spSecSize fn fh fhs chunkSize
              [.actorAddress, .actorSectorSize spActor, .openFile fn, .stat]
      | _ => ⟨.error .argCount, [.actorAddress, .actorSectorSize spActor]⟩

/-- No cancellation, no read error and no write error during the run. -/
def NoFaults (env : Env) (fh : File) : Prop :=
  fh.readFault = none ∧ (∀ i, env.ctxErr i = none) ∧ (∀ a b, env.calcWriteErr a b = none)

/-- The calls made up to and including `fh.Stat()`. -/
def preCalls (spActor fn : String) : List Event :=
  [.actorAddress, .actorSectorSize spActor, .openFile fn, .stat]

/-- Lines 87-110 succeeded: both capacity queries answered, there is exactly one
argument `fn`, it was opened as `fh`, and `Stat` answered `fhs`. -/
def Opened (env : Env) (spActor : String) (spSecSize : Nat) (fn : String) (fh : File)
    (fhs : FileInfo) : Prop :=
  env.actorAddress = .ok spActor ∧ env.actorSectorSize spActor = .ok spSecSize ∧
    env.args = [fn] ∧ env.openFile fn = .ok fh ∧ fh.statResult = .ok fhs

/-- A byte sequence followed by the zero bytes that bring it to 127 bytes, if it is
shorter. -/
def zeroExtend (bs : List Byte) : List Byte := bs ++ List.replicate (127 - bs.length) 0

/-- Every step before `fr32.Digest()` succeeded: the file was opened, the pre-check
passed, the hashing loop left by its `break` having read the whole content, and the
padding write, if any, was accepted. -/
def ReachesDigest (env : Env) (spActor fn : String) (fh : File) : Prop :=
  ∃ spSecSize fhs, Opened env spActor spSecSize fn fh fhs ∧
    preCheck fn spActor fhs (maxPayloadOf spSecSize) = none ∧
    hashLoop env fh fn spActor fhs (maxPayloadOf spSecSize) chunkSize
      (loopBudget fh chunkSize) 0 [] 0 0 =
      some (.done fh.content fh.content.length fh.content.length) ∧
    padFloor env fh.content fh.content.length =
      .ok (zeroExtend fh.content, max fh.content.length 127)

/-- Every step before the submission call succeeded. -/
def ReachesSubmission (env : Env) (spActor fn : String) (fh : File) (cpHash : List Byte)
    (pieceSz : Nat) (pCID : String) : Prop :=
  ReachesDigest env spActor fn fh ∧
    env.calcDigest (zeroExtend fh.content) = .ok (cpHash, pieceSz) ∧
    env.toCID cpHash = .ok pCID ∧ fh.seekFault = none

/-- The calls of a run that reaches the submission call. -/
def submissionCalls (env : Env) (spActor fn : String) (fh : File) (cpHash : List Byte)
    (pieceSz : Nat) (pCID : String) : List Event :=
  preCalls spActor fn ++
    [.digest (zeroExtend fh.content) (max fh.content.length 127), .toCID cpHash,
      .seek fh.content.length,
      .padreaderNew fh.content 0 (max fh.content.length 127),
      .sectorAddPieceToAny (unpadded pieceSz)
        (padreaderNew fh.content 0 (max fh.content.length 127))
        (dealInfo env.now pCID pieceSz)]

/-- Whether a call is the submission call. -/
def isSubmission : Event → Bool
  | .sectorAddPieceToAny _ _ _ => true
  | _ => false

/-- Whether a call is `fr32.Digest()`. -/
def isDigest : Event → Bool
  | .digest _ _ => true
  | _ => false

/-- A regular file with the given content whose `Stat` reports the size `reported`, and
that reads and seeks without error. -/
def regularFile (content : List Byte) (reported : Int) : File :=
  ⟨content, .ok ⟨true, reported⟩, none, none⟩

/-- Stand-in for `commp.Calc.Digest` in the example runs.  The padded piece size is the
smallest power of two that holds the Fr32 expansion of what was written (128 bytes for
every 127); the commitment is left empty, as no statement here depends on its value. -/
def digestStandIn (written : List Byte) : Except String (List Byte × Nat) :=
  .ok ([], pow2Ceil ((written.length + 126) / 127 * 128) ((written.length + 126) / 127 * 128) 1)

/-- An example environment in which every collaborator succeeds: the provider `f01000`
has sectors of `spSecSize` bytes and the one argument `piece.bin` opens as `fh`. -/
def exampleEnv (spSecSize : Nat) (fh : File) : Env where
  actorAddress := .ok "f01000"
  actorSectorSize := fun _ => .ok spSecSize
  args := ["piece.bin"]
  openFile := fun _ => .ok fh
  ctxErr := fun _ => none
  calcWriteErr := fun _ _ => none
  calcDigest := digestStandIn
  toCID := fun _ => .ok "baga6ea4seaq"
  now := 1700000000
  sectorAddPieceToAny := fun _ _ _ => .ok "sector 1"

/-- The `fr32.Digest()` calls among the given calls: the calculator content and the value
of `bytesHashed` at each. -/
def digestCalls : List Event → List (List Byte × Nat)
  | [] => []
  | .digest w bh :: rest => (w, bh) :: digestCalls rest
  | _ :: rest => digestCalls rest

/-- Example: a provider with 2 KiB sectors (payload 2032 bytes) and a regular file that
`Stat` reports as 2000 bytes long but that delivers 3000 bytes when read. -/
def grownEnv : Env := exampleEnv 2048 (regularFile (List.replicate 3000 0) 2000)

/-- Example: 2 KiB sectors and a regular file that `Stat` reports as 2000 bytes long but
that delivers a full chunk of `128<<20` bytes when read. -/
def hugeEnv : Env := exampleEnv 2048 (regularFile (List.replicate chunkSize 0) 2000)

/-- Example: 2 KiB sectors and a regular file of the single byte 7. -/
def oneByteEnv : Env := exampleEnv 2048 (regularFile [7] 1)

/-- Example: 2 KiB sectors and a regular file of 127 bytes. -/
def oneBlockEnv : Env := exampleEnv 2048 (regularFile (List.replicate 127 9) 127)

/-- Example: 2 KiB sectors and a regular file of 40 bytes. -/
def shortEnv : Env := exampleEnv 2048 (regularFile (List.replicate 40 5) 40)

/-- Example: 2 KiB sectors and the 40 bytes of `shortEnv` zero-extended to 127 bytes. -/
def shortExtendedEnv : Env :=
  exampleEnv 2048 (regularFile (List.replicate 40 5 ++ List.replicate 87 0) 127)

/-- Example: 2 KiB sectors and an empty regular file. -/
def emptyEnv : Env := exampleEnv 2048 (regularFile [] 0)

/-! ## The hashing loop -/

theorem readChunk_clean {fh : File} {off limit : Nat}
    (h : (readChunk fh off limit).2 = none) :
    (readChunk fh off limit).1 = (fh.content.drop off).take limit := by
  unfold readChunk at h ⊢
  split
  · rename_i k e hk
    rw [hk] at h
    by_cases hc : k ≤ fh.content.length ∧ k < off + limit
    · simp [hc] at h
    · simp [hc]
  · rfl

theorem copyN_eof {w : List Byte → List Byte → Option String} {fh : File} {c : List Byte}
    {off limit : Nat} (h : (copyN w fh c off limit).err = some .eof) (hoff : off ≤ fh.content.length) :
    (copyN w fh c off limit).fr32 = c ++ fh.content.drop off ∧
    (copyN w fh c off limit).n = fh.content.length - off ∧
    (copyN w fh c off limit).offset = fh.content.length ∧
    fh.content.length - off < limit := by
  unfold copyN at h ⊢
  simp only at h ⊢
  split at h
  · simp at h
  · split at h
    · simp at h
    · rename_i hr
      have hd := readChunk_clean hr
      by_cases hlt : (readChunk fh off limit).1.length < limit
      · simp only [hlt, if_true]
        rw [hd] at hlt ⊢
        simp only [List.length_take, List.length_drop] at hlt ⊢
        have h1 : fh.content.length - off < limit := by omega
        have h2 : List.take limit (List.drop off fh.content) = List.drop off fh.content := by
          apply List.take_of_length_le
          simp only [List.length_drop]; omega
        refine ⟨by rw [h2], by omega, by omega, h1⟩
      · simp [hlt] at h

theorem copyN_full {w : List Byte → List Byte → Option String} {fh : File} {c : List Byte}
    {off limit : Nat} (h : (copyN w fh c off limit).err = none) :
    (copyN w fh c off limit).fr32 = c ++ (fh.content.drop off).take limit ∧
    (copyN w fh c off limit).n = limit ∧
    (copyN w fh c off limit).offset = off + limit ∧
    limit ≤ fh.content.length - off := by
  unfold copyN at h ⊢
  simp only at h ⊢
  split at h
  · simp at h
  · split at h
    · simp at h
    · rename_i hr
      have hd := readChunk_clean hr
      by_cases hlt : (readChunk fh off limit).1.length < limit
      · simp [hlt] at h
      · simp only [hlt, if_false]
        rw [hd] at hlt ⊢
        simp only [List.length_take, List.length_drop] at hlt ⊢
        refine ⟨by trivial, by omega, by omega, by omega⟩


theorem hashLoop_done {env : Env} {fh : File} {fn spActor : String} {fhs : FileInfo}
    {m : Int} {chunk : Nat} :
    ∀ (budget iter : Nat) (c : List Byte) (bh off : Nat) (a : List Byte) (b o : Nat),
      off ≤ fh.content.length →
      hashLoop env fh fn spActor fhs m chunk budget iter c bh off = some (.done a b o) →
      a = c ++ fh.content.drop off ∧ b = bh + (fh.content.length - off) ∧
        o = fh.content.length := by
  intro budget
  induction budget with
  | zero => intro iter c bh off a b o _ h; simp [hashLoop] at h
  | succ k ih =>
    intro iter c bh off a b o hoff h
    simp only [hashLoop] at h
    cases hctx : env.ctxErr iter with
    | some e => simp [hctx] at h
    | none =>
      simp only [hctx] at h
      cases herr : (copyN env.calcWriteErr fh c off chunk).err with
      | some ce =>
        cases ce with
        | eof =>
          simp only [herr, Option.some.injEq, LoopOut.done.injEq] at h
          obtain ⟨h1, h2, h3, _⟩ := copyN_eof herr hoff
          obtain ⟨ha, hb, ho⟩ := h
          subst ha hb ho
          exact ⟨h1, by rw [h2], h3⟩
        | other e => simp [herr] at h
      | none =>
        simp only [herr] at h
        obtain ⟨h1, h2, h3, h4⟩ := copyN_full herr
        split at h
        · simp at h
        · have hoff2 : (copyN env.calcWriteErr fh c off chunk).offset ≤ fh.content.length := by
            rw [h3]; omega
          obtain ⟨ra, rb, ro⟩ := ih _ _ _ _ a b o hoff2 h
          rw [h1, h2, h3] at *
          refine ⟨?_, by omega, ro⟩
          rw [ra, List.append_assoc]
          congr 1
          rw [← List.drop_drop, List.take_append_drop]

theorem hashLoop_total {env : Env} {fh : File} {fn spActor : String} {fhs : FileInfo}
    {m : Int} {chunk : Nat} (hchunk : 0 < chunk) :
    ∀ (budget iter : Nat) (c : List Byte) (bh off : Nat),
      off ≤ fh.content.length → (fh.content.length - off) / chunk < budget →
      hashLoop env fh fn spActor fhs m chunk budget iter c bh off ≠ none := by
  intro budget
  induction budget with
  | zero => intro iter c bh off _ h; exact absurd h (Nat.not_lt_zero _)
  | succ k ih =>
    intro iter c bh off hoff hb
    simp only [hashLoop]
    cases hctx : env.ctxErr iter with
    | some e => simp
    | none =>
      simp only
      cases herr : (copyN env.calcWriteErr fh c off chunk).err with
      | some ce => cases ce <;> simp
      | none =>
        simp only
        obtain ⟨_, _, h3, h4⟩ := copyN_full herr
        split
        · simp
        · apply ih
          · rw [h3]; omega
          · rw [h3]
            have := Nat.div_eq_sub_div hchunk h4
            have e : fh.content.length - (off + chunk) = fh.content.length - off - chunk := by omega
            rw [e]; omega


theorem copyN_other {w : List Byte → List Byte → Option String} {fh : File} {c : List Byte}
    {off limit : Nat} {cause : String}
    (h : (copyN w fh c off limit).err = some (.other cause)) :
    fh.readFault ≠ none ∨ ∃ a b, w a b = some cause := by
  unfold copyN at h
  simp only at h
  split at h
  · rename_i e hw
    simp only [Option.some.injEq, CopyErr.other.injEq] at h
    subst h
    right
    by_cases hnil : (readChunk fh off limit).1 = []
    · simp [hnil] at hw
    · simp only [hnil, if_false] at hw
      exact ⟨_, _, hw⟩
  · split at h
    · rename_i e hr
      left
      intro hnone
      unfold readChunk at hr
      simp [hnone] at hr
    · split at h <;> simp at h

theorem hashLoop_failed {env : Env} {fh : File} {fn spActor : String} {fhs : FileInfo}
    {m : Int} {chunk : Nat} :
    ∀ (budget iter : Nat) (c : List Byte) (bh off : Nat) (e : Err),
      off ≤ fh.content.length →
      hashLoop env fh fn spActor fhs m chunk budget iter c bh off = some (.failed e) →
      (∃ i cause, env.ctxErr i = some cause ∧ e = .cancelled cause) ∨
      (∃ cause, e = .wrapped .copy cause ∧
        (fh.readFault ≠ none ∨ ∃ a b, env.calcWriteErr a b = some cause)) ∨
      (e = .midStream fn fhs.size spActor ∧
        ∃ j, 0 < j ∧ off + j * chunk ≤ fh.content.length ∧
          ((bh + j * chunk : Nat) : Int) > m) := by
  intro budget
  induction budget with
  | zero => intro iter c bh off e _ h; simp [hashLoop] at h
  | succ k ih =>
    intro iter c bh off e hoff h
    simp only [hashLoop] at h
    cases hctx : env.ctxErr iter with
    | some cause =>
      simp only [hctx, Option.some.injEq, LoopOut.failed.injEq] at h
      exact Or.inl ⟨iter, cause, hctx, h.symm⟩
    | none =>
      simp only [hctx] at h
      cases herr : (copyN env.calcWriteErr fh c off chunk).err with
      | some ce =>
        cases ce with
        | eof => simp [herr] at h
        | other cause =>
          simp only [herr, Option.some.injEq, LoopOut.failed.injEq] at h
          exact Or.inr (Or.inl ⟨cause, h.symm, copyN_other herr⟩)
      | none =>
        simp only [herr] at h
        obtain ⟨h1, h2, h3, h4⟩ := copyN_full herr
        split at h
        · rename_i hgt
          simp only [Option.some.injEq, LoopOut.failed.injEq] at h
          refine Or.inr (Or.inr ⟨h.symm, 1, by omega, by omega, ?_⟩)
          rw [h2] at hgt
          simpa using hgt
        · have hoff2 : (copyN env.calcWriteErr fh c off chunk).offset ≤ fh.content.length := by
            rw [h3]; omega
          rcases ih _ _ _ _ e hoff2 h with hc | hw | ⟨hm, j, hj, hle, hgt⟩
          · exact Or.inl hc
          · exact Or.inr (Or.inl hw)
          · refine Or.inr (Or.inr ⟨hm, j + 1, by omega, ?_, ?_⟩)
            · rw [h3] at hle
              rw [Nat.add_mul, Nat.one_mul]; omega
            · rw [h2] at hgt
              have e2 : bh + (j + 1) * chunk = bh + chunk + j * chunk := by
                rw [Nat.add_mul, Nat.one_mul]; omega
              rw [e2]; exact hgt

/-! ## The steps around the loop -/

theorem chunkSize_pos : 0 < chunkSize := by
  unfold chunkSize; norm_num

theorem preCheck_none {fn spActor : String} {fhs : FileInfo} {m : Int} :
    preCheck fn spActor fhs m = none ↔ fhs.isRegular = true ∧ fhs.size ≠ 0 ∧ fhs.size ≤ m := by
  unfold preCheck
  by_cases hr : fhs.isRegular = true
  · by_cases h0 : fhs.size = 0
    · simp [hr, h0]
    · by_cases hm : fhs.size > m
      · simp [hr, h0, hm]
      · simp only [hr, h0, hm, if_true, if_false, true_and, ne_eq, not_false_eq_true]
        simp only [true_iff]; omega
  · simp [hr]

theorem preCheck_some {fn spActor : String} {fhs : FileInfo} {m : Int} {e : Err}
    (h : preCheck fn spActor fhs m = some e) :
    e = .emptyFile fn ∨ e = .tooLong fn fhs.size spActor ∨ e = .notRegular := by
  unfold preCheck at h
  split at h
  · split at h
    · left; simpa using h.symm
    · split at h
      · right; left; simpa using h.symm
      · simp at h
  · right; right; simpa using h.symm

theorem padFloor_ok {env : Env} {c w : List Byte} {n bh : Nat}
    (h : padFloor env c n = .ok (w, bh)) :
    w = c ++ List.replicate (127 - n) 0 ∧ bh = max n 127 := by
  unfold padFloor at h
  split at h
  · rename_i hlt
    split at h
    · simp at h
    · simp only [Except.ok.injEq, Prod.mk.injEq] at h
      obtain ⟨h1, h2⟩ := h
      subst h1 h2
      exact ⟨rfl, by omega⟩
  · rename_i hge
    simp only [Except.ok.injEq, Prod.mk.injEq] at h
    obtain ⟨h1, h2⟩ := h
    subst h1 h2
    have : 127 - n = 0 := by omega
    rw [this]
    exact ⟨by simp, by omega⟩

theorem padFloor_error {env : Env} {c : List Byte} {n : Nat} {e : Err}
    (h : padFloor env c n = .error e) :
    ∃ cause, e = .wrapped .padWrite cause ∧
      env.calcWriteErr c (List.replicate (127 - n) 0) = some cause := by
  unfold padFloor at h
  split at h
  · split at h
    · rename_i cause hw
      simp only [Except.error.injEq] at h
      exact ⟨cause, h.symm, hw⟩
    · simp at h
  · simp at h

theorem padFloor_clean {env : Env} (hw : ∀ a b, env.calcWriteErr a b = none)
    (c : List Byte) (n : Nat) :
    padFloor env c n = .ok (c ++ List.replicate (127 - n) 0, max n 127) := by
  cases h : padFloor env c n with
  | error e =>
    obtain ⟨cause, _, hc⟩ := padFloor_error h
    rw [hw] at hc; cases hc
  | ok r =>
    obtain ⟨w, bh⟩ := r
    obtain ⟨h1, h2⟩ := padFloor_ok h
    rw [h1, h2]

theorem finish_cases (env : Env) (fh : File) (pre : List Event) (w : List Byte)
    (bh off : Nat) :
    (∃ cause, env.calcDigest w = .error cause ∧
      finish env fh pre w bh off = ⟨.error (.wrapped .digest cause), pre ++ [.digest w bh]⟩) ∨
    (∃ h p cause, env.calcDigest w = .ok (h, p) ∧ env.toCID h = .error cause ∧
      finish env fh pre w bh off =
        ⟨.error (.wrapped .toCID cause), pre ++ [.digest w bh, .toCID h]⟩) ∨
    (∃ h p cid cause, env.calcDigest w = .ok (h, p) ∧ env.toCID h = .ok cid ∧
      fh.seekFault = some cause ∧
      finish env fh pre w bh off =
        ⟨.error (.wrapped .seek cause), pre ++ [.digest w bh, .toCID h, .seek off]⟩) ∨
    (∃ h p cid, env.calcDigest w = .ok (h, p) ∧ env.toCID h = .ok cid ∧
      fh.seekFault = none ∧
      (finish env fh pre w bh off).trace =
        pre ++ [.digest w bh, .toCID h, .seek off, .padreaderNew fh.content 0 bh,
          .sectorAddPieceToAny (unpadded p) (padreaderNew fh.content 0 bh)
            (dealInfo env.now cid p)] ∧
      ((finish env fh pre w bh off).result = .ok () ∨
        ∃ cause, (finish env fh pre w bh off).result = .error (.wrapped .submission cause))) := by
  cases hd : env.calcDigest w with
  | error cause => exact Or.inl ⟨cause, rfl, by simp only [finish, hd]⟩
  | ok r =>
    obtain ⟨h, p⟩ := r
    right
    cases hc : env.toCID h with
    | error cause => exact Or.inl ⟨h, p, cause, rfl, hc, by simp only [finish, hd, hc]⟩
    | ok cid =>
      right
      cases hs : fh.seekFault with
      | some cause =>
        exact Or.inl ⟨h, p, cid, cause, rfl, hc, rfl, by simp only [finish, hd, hc, hs]⟩
      | none =>
        right
        refine ⟨h, p, cid, rfl, hc, rfl, ?_, ?_⟩
        · simp only [finish, hd, hc, hs, seekPos, Int.toNat_zero]
          split <;> rfl
        · simp only [finish, hd, hc, hs, seekPos, Int.toNat_zero]
          split
          · right; exact ⟨_, rfl⟩
          · left; rfl


theorem ingest_cases (env : Env) (spActor : String) (spSecSize : Nat) (fn : String)
    (fh : File) (fhs : FileInfo) (chunk : Nat) (pre : List Event) (hchunk : 0 < chunk) :
    (∃ e, preCheck fn spActor fhs (maxPayloadOf spSecSize) = some e ∧
      ingest env spActor spSecSize fn fh fhs chunk pre = ⟨.error e, pre⟩) ∨
    (∃ e, preCheck fn spActor fhs (maxPayloadOf spSecSize) = none ∧
      hashLoop env fh fn spActor fhs (maxPayloadOf spSecSize) chunk (loopBudget fh chunk)
        0 [] 0 0 = some (.failed e) ∧
      ingest env spActor spSecSize fn fh fhs chunk pre = ⟨.error e, pre⟩) ∨
    (∃ e, preCheck fn spActor fhs (maxPayloadOf spSecSize) = none ∧
      hashLoop env fh fn spActor fhs (maxPayloadOf spSecSize) chunk (loopBudget fh chunk)
        0 [] 0 0 = some (.done fh.content fh.content.length fh.content.length) ∧
      padFloor env fh.content fh.content.length = .error e ∧
      ingest env spActor spSecSize fn fh fhs chunk pre = ⟨.error e, pre⟩) ∨
    (preCheck fn spActor fhs (maxPayloadOf spSecSize) = none ∧
      hashLoop env fh fn spActor fhs (maxPayloadOf spSecSize) chunk (loopBudget fh chunk)
        0 [] 0 0 = some (.done fh.content fh.content.length fh.content.length) ∧
      padFloor env fh.content fh.content.length =
        .ok (zeroExtend fh.content, max fh.content.length 127) ∧
      ingest env spActor spSecSize fn fh fhs chunk pre =
        finish env fh pre (zeroExtend fh.content) (max fh.content.length 127)
          fh.content.length) := by
  cases hp : preCheck fn spActor fhs (maxPayloadOf spSecSize) with
  | some e => exact Or.inl ⟨e, rfl, by simp only [ingest, hp]⟩
  | none =>
    right
    have ht := @hashLoop_total env fh fn spActor fhs (maxPayloadOf spSecSize) chunk hchunk
      (loopBudget fh chunk) 0 [] 0 0 (Nat.zero_le _) (by unfold loopBudget; simp)
    cases hl : hashLoop env fh fn spActor fhs (maxPayloadOf spSecSize) chunk
        (loopBudget fh chunk) 0 [] 0 0 with
    | none => exact absurd hl ht
    | some out =>
      cases out with
      | failed e => exact Or.inl ⟨e, rfl, rfl, by simp only [ingest, hp, hl]⟩
      | done a b o =>
        right
        obtain ⟨ha, hb, ho⟩ := hashLoop_done _ _ _ _ _ a b o (Nat.zero_le _) hl
        simp only [List.nil_append, List.drop_zero, Nat.zero_add, Nat.sub_zero] at ha hb
        subst ha hb ho
        cases hf : padFloor env fh.content fh.content.length with
        | error e => exact Or.inl ⟨e, rfl, rfl, rfl, by simp only [ingest, hp, hl, hf]⟩
        | ok r =>
          obtain ⟨w, bh⟩ := r
          obtain ⟨hw, hbh⟩ := padFloor_ok hf
          subst hw hbh
          exact Or.inr ⟨rfl, rfl, rfl, by simp only [ingest, hp, hl, hf, zeroExtend]⟩

theorem action_cases (env : Env) :
    (∃ e t, action env = ⟨.error e, t⟩ ∧
      (e = .argCount ∨ ∃ stage cause, e = .wrapped stage cause ∧ stage ≠ .submission) ∧
      (∀ ev ∈ t, isDigest ev = false ∧ isSubmission ev = false) ∧
      ¬ ∃ spActor spSecSize fn fh fhs, Opened env spActor spSecSize fn fh fhs) ∨
    (∃ spActor spSecSize fn fh fhs, Opened env spActor spSecSize fn fh fhs ∧
      action env = ingest env spActor spSecSize fn fh fhs chunkSize (preCalls spActor fn)) := by
  cases ha : env.actorAddress with
  | error cause =>
    refine Or.inl ⟨.wrapped .actorAddress cause, [.actorAddress], by simp only [action, ha],
      Or.inr ⟨_, _, rfl, by decide⟩, ?_, ?_⟩
    · intro ev hev; simp at hev; subst hev; exact ⟨rfl, rfl⟩
    · rintro ⟨a, s, f, fh, fhs, h1, _⟩
      rw [ha] at h1; cases h1
  | ok spActor =>
    cases hs : env.actorSectorSize spActor with
    | error cause =>
      refine Or.inl ⟨.wrapped .actorSectorSize cause, [.actorAddress, .actorSectorSize spActor],
        by simp only [action, ha, hs], Or.inr ⟨_, _, rfl, by decide⟩, ?_, ?_⟩
      · intro ev hev; simp at hev; rcases hev with h | h <;> subst h <;> exact ⟨rfl, rfl⟩
      · rintro ⟨a, s, f, fh, fhs, h1, h2, _⟩
        rw [ha] at h1; cases h1
        rw [hs] at h2; cases h2
    | ok spSecSize =>
      have hargs : (∃ fn, env.args = [fn]) ∨ ¬ ∃ fn, env.args = [fn] := Classical.em _
      rcases hargs with ⟨fn, hfn⟩ | hno
      · cases ho : env.openFile fn with
        | error cause =>
          refine Or.inl ⟨.wrapped .openFile cause,
            [.actorAddress, .actorSectorSize spActor, .openFile fn],
            by simp only [action, ha, hs, hfn, ho],
            Or.inr ⟨_, _, rfl, by decide⟩, ?_, ?_⟩
          · intro ev hev; simp at hev
            rcases hev with h | h | h <;> subst h <;> exact ⟨rfl, rfl⟩
          · rintro ⟨a, s, f, fh, fhs, h1, h2, h3, h4, _⟩
            rw [hfn] at h3; cases h3
            rw [ho] at h4; cases h4
        | ok fh =>
          cases hst : fh.statResult with
          | error cause =>
            refine Or.inl ⟨.wrapped .stat cause,
              [.actorAddress, .actorSectorSize spActor, .openFile fn, .stat],
              by simp only [action, ha, hs, hfn, ho, hst],
              Or.inr ⟨_, _, rfl, by decide⟩, ?_, ?_⟩
            · intro ev hev; simp at hev
              rcases hev with h | h | h | h <;> subst h <;> exact ⟨rfl, rfl⟩
            · rintro ⟨a, s, f, fh2, fhs, h1, h2, h3, h4, h5⟩
              rw [hfn] at h3; cases h3
              rw [ho] at h4; cases h4
              rw [hst] at h5; cases h5
          | ok fhs =>
            exact Or.inr ⟨spActor, spSecSize, fn, fh, fhs, ⟨ha, hs, hfn, ho, hst⟩,
              by simp only [action, ha, hs, hfn, ho, hst, preCalls]⟩
      · refine Or.inl ⟨.argCount, [.actorAddress, .actorSectorSize spActor], ?_, Or.inl rfl, ?_, ?_⟩
        · simp only [action, ha, hs]
          split
          · rename_i fn hfn
            exact absurd ⟨fn, hfn⟩ hno
          · rfl
        · intro ev hev; simp at hev; rcases hev with h | h <;> subst h <;> exact ⟨rfl, rfl⟩
        · rintro ⟨a, s, f, fh, fhs, h1, h2, h3, _⟩
          exact hno ⟨f, h3⟩


theorem Opened_unique {env : Env} {a1 a2 : String} {s1 s2 : Nat} {f1 f2 : String}
    {fh1 fh2 : File} {i1 i2 : FileInfo} (h1 : Opened env a1 s1 f1 fh1 i1)
    (h2 : Opened env a2 s2 f2 fh2 i2) :
    a1 = a2 ∧ s1 = s2 ∧ f1 = f2 ∧ fh1 = fh2 ∧ i1 = i2 := by
  obtain ⟨p1, p2, p3, p4, p5⟩ := h1
  obtain ⟨q1, q2, q3, q4, q5⟩ := h2
  rw [p1] at q1; cases q1
  rw [p2] at q2; cases q2
  rw [p3] at q3; cases q3
  rw [p4] at q4; cases q4
  rw [p5] at q5; cases q5
  exact ⟨rfl, rfl, rfl, rfl, rfl⟩

theorem preCalls_plain (spActor fn : String) :
    ∀ ev ∈ preCalls spActor fn, isDigest ev = false ∧ isSubmission ev = false := by
  intro ev hev
  simp [preCalls] at hev
  rcases hev with h | h | h | h <;> subst h <;> exact ⟨rfl, rfl⟩

theorem action_digest_outcome (env : Env) :
    (∃ spActor fn fh, ReachesDigest env spActor fn fh ∧
      action env = finish env fh (preCalls spActor fn) (zeroExtend fh.content)
        (max fh.content.length 127) fh.content.length) ∨
    ((¬ ∃ spActor fn fh, ReachesDigest env spActor fn fh) ∧
      (∃ e, (action env).result = .error e ∧ ∀ cause, e ≠ .wrapped .submission cause) ∧
      ∀ ev ∈ (action env).trace, isDigest ev = false ∧ isSubmission ev = false) := by
  rcases action_cases env with ⟨e, t, hact, hkind, hev, hno⟩ |
    ⟨spActor, spSecSize, fn, fh, fhs, hopen, hact⟩
  · right
    refine ⟨?_, ⟨e, by rw [hact], ?_⟩, by rw [hact]; exact hev⟩
    · rintro ⟨a, f, fh, s, i, ho, _⟩
      exact hno ⟨a, s, f, fh, i, ho⟩
    · intro cause hc
      rcases hkind with h | ⟨st, c, h, hne⟩
      · rw [h] at hc; cases hc
      · rw [h] at hc; cases hc; exact hne rfl
  · have key : ∀ e, action env = ⟨.error e, preCalls spActor fn⟩ →
        (∀ cause, e ≠ .wrapped .submission cause) →
        (¬ ∃ a f fh2, ReachesDigest env a f fh2) →
        ((¬ ∃ a f fh2, ReachesDigest env a f fh2) ∧
          (∃ e, (action env).result = .error e ∧ ∀ cause, e ≠ .wrapped .submission cause) ∧
          ∀ ev ∈ (action env).trace, isDigest ev = false ∧ isSubmission ev = false) := by
      intro e he hne hnr
      exact ⟨hnr, ⟨e, by rw [he], hne⟩, by rw [he]; exact preCalls_plain spActor fn⟩
    rcases ingest_cases env spActor spSecSize fn fh fhs chunkSize (preCalls spActor fn)
      chunkSize_pos with ⟨e, hp, hi⟩ | ⟨e, hp, hl, hi⟩ | ⟨e, hp, hl, hf, hi⟩ | ⟨hp, hl, hf, hi⟩
    · right
      refine key e (hact.trans hi) ?_ ?_
      · intro cause hc
        rcases preCheck_some hp with h | h | h <;> rw [h] at hc <;> cases hc
      · rintro ⟨a, f, fh2, s, i, ho, hp2, _⟩
        obtain ⟨rfl, rfl, rfl, rfl, rfl⟩ := Opened_unique hopen ho
        rw [hp] at hp2; cases hp2
    · right
      refine key e (hact.trans hi) ?_ ?_
      · intro cause hc
        rcases hashLoop_failed _ _ _ _ _ e (Nat.zero_le _) hl with
          ⟨_, c, _, h⟩ | ⟨c, h, _⟩ | ⟨h, _⟩ <;> rw [h] at hc <;> cases hc
      · rintro ⟨a, f, fh2, s, i, ho, _, hl2, _⟩
        obtain ⟨rfl, rfl, rfl, rfl, rfl⟩ := Opened_unique hopen ho
        rw [hl] at hl2; cases hl2
    · right
      refine key e (hact.trans hi) ?_ ?_
      · intro cause hc
        obtain ⟨c, h, _⟩ := padFloor_error hf
        rw [h] at hc; cases hc
      · rintro ⟨a, f, fh2, s, i, ho, _, _, hf2⟩
        obtain ⟨rfl, rfl, rfl, rfl, rfl⟩ := Opened_unique hopen ho
        rw [hf] at hf2; cases hf2
    · left
      exact ⟨spActor, fn, fh, ⟨spSecSize, fhs, hopen, hp, hl, hf⟩, hact.trans hi⟩

theorem ReachesDigest_unique {env : Env} {a1 a2 f1 f2 : String} {fh1 fh2 : File}
    (h1 : ReachesDigest env a1 f1 fh1) (h2 : ReachesDigest env a2 f2 fh2) :
    a1 = a2 ∧ f1 = f2 ∧ fh1 = fh2 := by
  obtain ⟨_, _, o1, _⟩ := h1
  obtain ⟨_, _, o2, _⟩ := h2
  obtain ⟨h, _, h3, h4, _⟩ := Opened_unique o1 o2
  exact ⟨h, h3, h4⟩

theorem action_outcome (env : Env) :
    (∃ spActor fn fh h p cid, ReachesSubmission env spActor fn fh h p cid ∧
      (action env).trace = submissionCalls env spActor fn fh h p cid ∧
      ((action env).result = .ok () ∨
        ∃ cause, (action env).result = .error (.wrapped .submission cause))) ∨
    ((¬ ∃ spActor fn fh h p cid, ReachesSubmission env spActor fn fh h p cid) ∧
      (∃ e, (action env).result = .error e ∧ ∀ cause, e ≠ .wrapped .submission cause) ∧
      ∀ ev ∈ (action env).trace, isSubmission ev = false) := by
  rcases action_digest_outcome env with ⟨spActor, fn, fh, hr, hact⟩ | ⟨hno, herr, hev⟩
  · have key : ∀ e t, finish env fh (preCalls spActor fn) (zeroExtend fh.content)
          (max fh.content.length 127) fh.content.length = ⟨.error e, t⟩ →
        (∀ cause, e ≠ .wrapped .submission cause) →
        (∀ ev ∈ t, isSubmission ev = false) →
        (¬ ∃ a f fh2 h p cid, ReachesSubmission env a f fh2 h p cid) →
        ((¬ ∃ a f fh2 h p cid, ReachesSubmission env a f fh2 h p cid) ∧
          (∃ e, (action env).result = .error e ∧ ∀ cause, e ≠ .wrapped .submission cause) ∧
          ∀ ev ∈ (action env).trace, isSubmission ev = false) := by
      intro e t hf hne ht hnr
      rw [hact, hf]
      exact ⟨hnr, ⟨e, rfl, hne⟩, ht⟩
    have hpre := preCalls_plain spActor fn
    rcases finish_cases env fh (preCalls spActor fn) (zeroExtend fh.content)
      (max fh.content.length 127) fh.content.length with
      ⟨cause, hd, hf⟩ | ⟨h, p, cause, hd, hc, hf⟩ | ⟨h, p, cid, cause, hd, hc, hs, hf⟩ |
      ⟨h, p, cid, hd, hc, hs, htr, hres⟩
    · right
      refine key _ _ hf (by intro c hc; cases hc) ?_ ?_
      · intro ev hev
        simp only [List.mem_append, List.mem_singleton] at hev
        rcases hev with h | h
        · exact (hpre ev h).2
        · subst h; rfl
      · rintro ⟨a, f, fh2, h, p, cid, hr2, hd2, _⟩
        obtain ⟨rfl, rfl, rfl⟩ := ReachesDigest_unique hr hr2
        rw [hd] at hd2; cases hd2
    · right
      refine key _ _ hf (by intro c hc; cases hc) ?_ ?_
      · intro ev hev
        simp only [List.mem_append, List.mem_cons, List.mem_singleton, List.not_mem_nil,
          or_false] at hev
        rcases hev with h | h | h
        · exact (hpre ev h).2
        · subst h; rfl
        · subst h; rfl
      · rintro ⟨a, f, fh2, h2, p2, cid, hr2, hd2, hc2, _⟩
        obtain ⟨rfl, rfl, rfl⟩ := ReachesDigest_unique hr hr2
        rw [hd] at hd2; cases hd2
        rw [hc] at hc2; cases hc2
    · right
      refine key _ _ hf (by intro c hc; cases hc) ?_ ?_
      · intro ev hev
        simp only [List.mem_append, List.mem_cons, List.mem_singleton, List.not_mem_nil,
          or_false] at hev
        rcases hev with h | h | h | h
        · exact (hpre ev h).2
        · subst h; rfl
        · subst h; rfl
        · subst h; rfl
      · rintro ⟨a, f, fh2, h2, p2, cid2, hr2, _, _, hs2⟩
        obtain ⟨rfl, rfl, rfl⟩ := ReachesDigest_unique hr hr2
        rw [hs] at hs2; cases hs2
    · left
      refine ⟨spActor, fn, fh, h, p, cid, ⟨hr, hd, hc, hs⟩, ?_, ?_⟩
      · rw [hact, htr]; rfl
      · rw [hact]; exact hres
  · right
    refine ⟨?_, herr, fun ev h => (hev ev h).2⟩
    rintro ⟨a, f, fh, h, p, cid, hr, _⟩
    exact hno ⟨a, f, fh, hr⟩


/-! ## Runs without faults -/

theorem hashLoop_clean_of {env : Env} {fh : File} {fn spActor : String} {fhs : FileInfo}
    {m : Int} {chunk : Nat} (hchunk : 0 < chunk) (hclean : NoFaults env fh)
    (budget iter : Nat) (c : List Byte) (bh off : Nat)
    (hoff : off ≤ fh.content.length)
    (hm : ∀ j, 0 < j → off + j * chunk ≤ fh.content.length → ((bh + j * chunk : Nat) : Int) ≤ m)
    (hb : (fh.content.length - off) / chunk < budget) :
    hashLoop env fh fn spActor fhs m chunk budget iter c bh off =
      some (.done (c ++ fh.content.drop off) (bh + (fh.content.length - off))
        fh.content.length) := by
  have ht := @hashLoop_total env fh fn spActor fhs m chunk hchunk budget iter c bh off hoff hb
  cases hres : hashLoop env fh fn spActor fhs m chunk budget iter c bh off with
  | none => exact absurd hres ht
  | some out =>
    cases out with
    | done a b o =>
      obtain ⟨ha, hb2, ho⟩ := hashLoop_done budget iter c bh off a b o hoff hres
      rw [ha, hb2, ho]
    | failed e =>
      exfalso
      obtain ⟨hr, hc, hw⟩ := hclean
      rcases hashLoop_failed budget iter c bh off e hoff hres with
        ⟨i, cause, hi, _⟩ | ⟨cause, _, hf | ⟨a, b, hab⟩⟩ | ⟨_, j, hj, hle, hgt⟩
      · rw [hc i] at hi; cases hi
      · exact hf hr
      · rw [hw a b] at hab; cases hab
      · have := hm j hj hle
        omega

theorem reachesDigest_of_clean {env : Env} {spActor fn : String} {spSecSize : Nat}
    {fh : File} {fhs : FileInfo} (hopen : Opened env spActor spSecSize fn fh fhs)
    (hpre : preCheck fn spActor fhs (maxPayloadOf spSecSize) = none)
    (hclean : NoFaults env fh)
    (hsize : fh.content.length < chunkSize ∨
      (fh.content.length : Int) ≤ maxPayloadOf spSecSize) :
    ReachesDigest env spActor fn fh := by
  refine ⟨spSecSize, fhs, hopen, hpre, ?_, ?_⟩
  · have := @hashLoop_clean_of env fh fn spActor fhs (maxPayloadOf spSecSize) chunkSize
      chunkSize_pos hclean (loopBudget fh chunkSize) 0 [] 0 0 (Nat.zero_le _) ?_
      (by unfold loopBudget; simp)
    · simpa using this
    · intro j hj hle
      rcases hsize with h | h
      · exfalso
        have : chunkSize ≤ j * chunkSize := Nat.le_mul_of_pos_left _ hj
        omega
      · have : ((0 + j * chunkSize : Nat) : Int) ≤ (fh.content.length : Int) := by
          have : 0 + j * chunkSize ≤ fh.content.length := hle
          exact_mod_cast this
        omega
  · rw [padFloor_clean hclean.2.2]
    rfl

theorem action_of_opened {env : Env} {spActor fn : String} {spSecSize : Nat}
    {fh : File} {fhs : FileInfo} (hopen : Opened env spActor spSecSize fn fh fhs) :
    action env = ingest env spActor spSecSize fn fh fhs chunkSize (preCalls spActor fn) := by
  obtain ⟨h1, h2, h3, h4, h5⟩ := hopen
  simp only [action, h1, h2, h3, h4, h5, preCalls]

theorem action_of_reachesDigest {env : Env} {spActor fn : String} {fh : File}
    (h : ReachesDigest env spActor fn fh) :
    action env = finish env fh (preCalls spActor fn) (zeroExtend fh.content)
      (max fh.content.length 127) fh.content.length := by
  obtain ⟨s, i, hopen, hp, hl, hf⟩ := h
  rw [action_of_opened hopen]
  simp only [ingest, hp, hl, hf]

theorem action_of_reachesSubmission {env : Env} {spActor fn : String} {fh : File}
    {h : List Byte} {p : Nat} {cid : String}
    (hr : ReachesSubmission env spActor fn fh h p cid) :
    (action env).trace = submissionCalls env spActor fn fh h p cid ∧
    (∀ so, env.sectorAddPieceToAny (unpadded p)
        (padreaderNew fh.content 0 (max fh.content.length 127))
        (dealInfo env.now cid p) = .ok so → (action env).result = .ok ()) ∧
    (∀ cause, env.sectorAddPieceToAny (unpadded p)
        (padreaderNew fh.content 0 (max fh.content.length 127))
        (dealInfo env.now cid p) = .error cause →
      (action env).result = .error (.wrapped .submission cause)) := by
  obtain ⟨hd, hdig, hcid, hseek⟩ := hr
  rw [action_of_reachesDigest hd]
  refine ⟨?_, ?_, ?_⟩
  · simp only [finish, hdig, hcid, hseek, seekPos, Int.toNat_zero, submissionCalls]
    split <;> rfl
  · intro so hso
    simp only [finish, hdig, hcid, hseek, seekPos, Int.toNat_zero, hso]
  · intro cause hso
    simp only [finish, hdig, hcid, hseek, seekPos, Int.toNat_zero, hso]

theorem digestCalls_append (xs ys : List Event) :
    digestCalls (xs ++ ys) = digestCalls xs ++ digestCalls ys := by
  induction xs with
  | nil => rfl
  | cons x xs ih => cases x <;> simp [digestCalls, ih]

theorem digestCalls_preCalls (spActor fn : String) : digestCalls (preCalls spActor fn) = [] := rfl

theorem finish_digestCalls (env : Env) (fh : File) (spActor fn : String) (w : List Byte)
    (bh off : Nat) :
    digestCalls (finish env fh (preCalls spActor fn) w bh off).trace = [(w, bh)] := by
  rcases finish_cases env fh (preCalls spActor fn) w bh off with
    ⟨cause, hd, hf⟩ | ⟨h, p, cause, hd, hc, hf⟩ | ⟨h, p, cid, cause, hd, hc, hs, hf⟩ |
    ⟨h, p, cid, hd, hc, hs, htr, hres⟩
  · rw [hf]; rfl
  · rw [hf]; rfl
  · rw [hf]; rfl
  · rw [htr]; rfl


/-! ## The claims -/

/-- C1: the pre-check returns an error exactly when the file is not regular, or its
reported size is 0, or its reported size exceeds `maxPayload`; the action then returns
that error without making another call.  A regular file of size 0 is rejected as empty,
one of size `maxPayload + 1` as oversized, and one of size `maxPayload >= 1` passes. -/
theorem preCheck_rejects_iff (fn spActor : String) (isRegular : Bool) (s m : Int) :
    ((∃ e, preCheck fn spActor ⟨isRegular, s⟩ m = some e) ↔
      (isRegular = false ∨ s = 0 ∨ s > m)) ∧
    (∀ (env : Env) (spSecSize : Nat) (fh : File) (chunk : Nat) (pre : List Event) (e : Err),
      preCheck fn spActor ⟨isRegular, s⟩ (maxPayloadOf spSecSize) = some e →
      ingest env spActor spSecSize fn fh ⟨isRegular, s⟩ chunk pre = ⟨.error e, pre⟩) ∧
    preCheck fn spActor ⟨true, 0⟩ m = some (.emptyFile fn) ∧
    (0 ≤ m → preCheck fn spActor ⟨true, m + 1⟩ m = some (.tooLong fn (m + 1) spActor)) ∧
    (1 ≤ m → preCheck fn spActor ⟨true, m⟩ m = none) := by
  refine ⟨?_, ?_, ?_, ?_, ?_⟩
  · have key := @preCheck_none fn spActor ⟨isRegular, s⟩ m
    dsimp only at key
    cases hp : preCheck fn spActor ⟨isRegular, s⟩ m with
    | none =>
      have := key.mp hp
      refine ⟨fun ⟨e, he⟩ => (by cases he), fun h => ?_⟩
      rcases h with h | h | h
      · rw [this.1] at h; cases h
      · exact absurd h this.2.1
      · omega
    | some e =>
      have hne : ¬ preCheck fn spActor ⟨isRegular, s⟩ m = none := by rw [hp]; simp
      rw [key] at hne
      refine ⟨fun _ => ?_, fun _ => ⟨e, rfl⟩⟩
      by_cases h1 : isRegular = true
      · by_cases h2 : s = 0
        · exact Or.inr (Or.inl h2)
        · right; right
          by_contra h3
          exact hne ⟨h1, h2, by omega⟩
      · left; simpa using h1
  · intro env spSecSize fh chunk pre e he
    simp only [ingest, he]
  · simp [preCheck]
  · intro hm
    have h1 : ¬ (m + 1 = 0) := by omega
    have h2 : m + 1 > m := by omega
    simp [preCheck, h1, h2]
  · intro hm
    have h1 : ¬ (m = 0) := by omega
    simp [preCheck, h1]

/-- C1, at an instance: with `maxPayload` 2032, sizes 2033 and 2032. -/
theorem preCheck_rejects_iff_witness :
    preCheck "piece.bin" "f01000" ⟨true, 2032 + 1⟩ 2032 =
        some (.tooLong "piece.bin" (2032 + 1) "f01000") ∧
      preCheck "piece.bin" "f01000" ⟨true, 2032⟩ 2032 = none :=
  ⟨(preCheck_rejects_iff "piece.bin" "f01000" true 0 2032).2.2.2.1 (by decide),
    (preCheck_rejects_iff "piece.bin" "f01000" true 0 2032).2.2.2.2 (by decide)⟩

/-- C4: for a source of `n` bytes with `1 <= n <= maxPayload`, no read or write error and
no cancellation, and any positive chunk size, the hashing loop ends by its end-of-file
`break` as soon as it is given enough iterations, having written exactly the source
content to the calculator, with `bytesHashed = n` and the source read to its end. -/
theorem chunking_preserves_content (env : Env) (fh : File) (fn spActor : String)
    (fhs : FileInfo) (m : Int) (chunk : Nat) (hchunk : 0 < chunk)
    (hclean : NoFaults env fh) (_h1 : 1 ≤ fh.content.length)
    (hm : (fh.content.length : Int) ≤ m) (budget : Nat)
    (hbudget : loopBudget fh chunk ≤ budget) :
    hashLoop env fh fn spActor fhs m chunk budget 0 [] 0 0 =
      some (.done fh.content fh.content.length fh.content.length) := by
  have := @hashLoop_clean_of env fh fn spActor fhs m chunk hchunk hclean budget 0 [] 0 0
    (Nat.zero_le _) ?_ (by unfold loopBudget at hbudget; simp; omega)
  · simpa using this
  · intro j _ hle
    have : ((0 + j * chunk : Nat) : Int) ≤ (fh.content.length : Int) := by
      have : 0 + j * chunk ≤ fh.content.length := hle
      exact_mod_cast this
    omega

/-- C4, at an instance: ten bytes read in chunks of three. -/
theorem chunking_preserves_content_witness :
    hashLoop (exampleEnv 2048 (regularFile (List.replicate 10 1) 10))
        (regularFile (List.replicate 10 1) 10) "piece.bin" "f01000" ⟨true, 10⟩ 2032 3 4
        0 [] 0 0 =
      some (.done (List.replicate 10 1) 10 10) :=
  chunking_preserves_content (exampleEnv 2048 (regularFile (List.replicate 10 1) 10))
    (regularFile (List.replicate 10 1) 10) "piece.bin" "f01000" ⟨true, 10⟩ 2032 3
    (by decide) ⟨rfl, fun _ => rfl, fun _ _ => rfl⟩ (by decide) (by decide) 4 (by decide)


/-! ## The example runs -/

theorem zeroExtend_of_le {bs : List Byte} (h : 127 ≤ bs.length) : zeroExtend bs = bs := by
  unfold zeroExtend
  have : 127 - bs.length = 0 := by omega
  rw [this]
  simp

theorem zeroExtend_length (bs : List Byte) : (zeroExtend bs).length = max bs.length 127 := by
  unfold zeroExtend
  simp only [List.length_append, List.length_replicate]
  omega

theorem maxPayloadOf_2048 : maxPayloadOf 2048 = 2032 := by decide

theorem exampleEnv_run (s : Nat) (c : List Byte) (r : Int)
    (hpre : preCheck "piece.bin" "f01000" ⟨true, r⟩ (maxPayloadOf s) = none)
    (hsize : c.length < chunkSize ∨ (c.length : Int) ≤ maxPayloadOf s)
    (h : List Byte) (p : Nat) (hd : digestStandIn (zeroExtend c) = .ok (h, p)) :
    (action (exampleEnv s (regularFile c r))).trace =
      submissionCalls (exampleEnv s (regularFile c r)) "f01000" "piece.bin"
        (regularFile c r) h p "baga6ea4seaq" ∧
    (action (exampleEnv s (regularFile c r))).result = .ok () := by
  have hopen : Opened (exampleEnv s (regularFile c r)) "f01000" s "piece.bin"
      (regularFile c r) ⟨true, r⟩ := ⟨rfl, rfl, rfl, rfl, rfl⟩
  have hclean : NoFaults (exampleEnv s (regularFile c r)) (regularFile c r) :=
    ⟨rfl, fun _ => rfl, fun _ _ => rfl⟩
  have hr : ReachesSubmission (exampleEnv s (regularFile c r)) "f01000" "piece.bin"
      (regularFile c r) h p "baga6ea4seaq" :=
    ⟨reachesDigest_of_clean hopen hpre hclean hsize, hd, rfl, rfl⟩
  obtain ⟨h1, h2, _⟩ := action_of_reachesSubmission hr
  exact ⟨h1, h2 "sector 1" rfl⟩

/-- C2, the failing run: with a payload limit of 2032 bytes, a file reported as 2000
bytes that delivers 3000 bytes is hashed to its end in one `io.CopyN` that returns
`io.EOF`; the loop leaves by `break` before the size check, `fr32.Digest()` is called with
`bytesHashed = 3000 > 2032`, and the piece is submitted. -/
theorem oversized_source_reaches_submission :
    maxPayloadOf 2048 = 2032 ∧
    (action grownEnv).result = .ok () ∧
    (action grownEnv).trace =
      [.actorAddress, .actorSectorSize "f01000", .openFile "piece.bin", .stat,
        .digest (List.replicate 3000 0) 3000, .toCID [], .seek 3000,
        .padreaderNew (List.replicate 3000 0) 0 3000,
        .sectorAddPieceToAny 4064 (padreaderNew (List.replicate 3000 0) 0 3000)
          (dealInfo 1700000000 "baga6ea4seaq" 4096)] := by
  have hlen : (List.replicate 3000 (0 : Byte)).length = 3000 := List.length_replicate _ _
  have hz : zeroExtend (List.replicate 3000 (0 : Byte)) = List.replicate 3000 0 :=
    zeroExtend_of_le (by rw [hlen]; decide)
  have hd : digestStandIn (zeroExtend (List.replicate 3000 (0 : Byte))) = .ok ([], 4096) := by
    rw [hz]
    simp only [digestStandIn, List.length_replicate]
    rfl
  have hrun := exampleEnv_run 2048 (List.replicate 3000 0) 2000 (by decide)
    (Or.inl (by rw [hlen]; unfold chunkSize; norm_num)) [] 4096 hd
  refine ⟨maxPayloadOf_2048, hrun.2, ?_⟩
  unfold grownEnv
  rw [hrun.1]
  simp only [submissionCalls, preCalls, regularFile, exampleEnv, hz, hlen, List.cons_append,
    List.nil_append]
  rfl


theorem copyN_clean_full {w : List Byte → List Byte → Option String} {fh : File}
    (c : List Byte) {off limit : Nat} (hr : fh.readFault = none) (hw : ∀ a b, w a b = none)
    (hlen : limit ≤ fh.content.length - off) :
    (copyN w fh c off limit).err = none := by
  have hl : ((fh.content.drop off).take limit).length = limit := by
    simp only [List.length_take, List.length_drop]; omega
  simp only [copyN, readChunk, hr, hw, ite_self, hl, Nat.lt_irrefl, if_false]

theorem hashLoop_midstream_first {env : Env} {fh : File} {fn spActor : String}
    {fhs : FileInfo} {m : Int} {chunk : Nat} (hclean : NoFaults env fh)
    (budget iter : Nat) (c : List Byte) (bh off : Nat)
    (hlen : chunk ≤ fh.content.length - off) (hm : ((bh + chunk : Nat) : Int) > m) :
    hashLoop env fh fn spActor fhs m chunk (budget + 1) iter c bh off =
      some (.failed (.midStream fn fhs.size spActor)) := by
  obtain ⟨hr, hc, hw⟩ := hclean
  have herr := copyN_clean_full c hr hw hlen
  obtain ⟨_, hn, _, _⟩ := copyN_full herr
  simp only [hashLoop, hc, herr, hn, hm, if_true]

/-- The mid-stream error always carries the size `Stat` reported, which the pre-check
has already found to be within `maxPayload`, while the count that tripped the check is
above it. -/
theorem midStream_reports_stat_size (env : Env) (fn spActor : String) (reported : Int)
    (h : (action env).result = .error (.midStream fn reported spActor)) :
    ∃ spSecSize fh fhs, Opened env spActor spSecSize fn fh fhs ∧ reported = fhs.size ∧
      reported ≤ maxPayloadOf spSecSize ∧
      ∃ bytesHashed : Nat, (bytesHashed : Int) > maxPayloadOf spSecSize := by
  rcases action_cases env with ⟨e, t, hact, hkind, _, _⟩ | ⟨a, s, f, fh, fhs, hopen, hact⟩
  · rw [hact] at h
    simp only [Except.error.injEq] at h
    rcases hkind with hk | ⟨st, c, hk, _⟩ <;> rw [hk] at h <;> cases h
  · rcases ingest_cases env a s f fh fhs chunkSize (preCalls a f) chunkSize_pos with
      ⟨e, hp, hi⟩ | ⟨e, hp, hl, hi⟩ | ⟨e, hp, hl, hf, hi⟩ | ⟨hp, hl, hf, hi⟩
    · rw [hact, hi] at h
      simp only [Except.error.injEq] at h
      rcases preCheck_some hp with hk | hk | hk <;> rw [hk] at h <;> cases h
    · rw [hact, hi] at h
      simp only [Except.error.injEq] at h
      rcases hashLoop_failed _ _ _ _ _ e (Nat.zero_le _) hl with
        ⟨_, c, _, hk⟩ | ⟨c, hk, _⟩ | ⟨hk, j, _, _, hgt⟩
      · rw [hk] at h; cases h
      · rw [hk] at h; cases h
      · rw [hk] at h
        simp only [Err.midStream.injEq] at h
        obtain ⟨rfl, rfl, rfl⟩ := h
        exact ⟨s, fh, fhs, hopen, rfl, (preCheck_none.mp hp).2.2, _, hgt⟩
    · rw [hact, hi] at h
      simp only [Except.error.injEq] at h
      obtain ⟨c, hk, _⟩ := padFloor_error hf
      rw [hk] at h; cases h
    · rw [hact, hi] at h
      rcases finish_cases env fh (preCalls a f) (zeroExtend fh.content)
        (max fh.content.length 127) fh.content.length with
        ⟨cause, _, hfin⟩ | ⟨_, _, cause, _, _, hfin⟩ | ⟨_, _, _, cause, _, _, _, hfin⟩ |
        ⟨_, _, _, _, _, _, _, hres⟩
      · rw [hfin] at h; cases h
      · rw [hfin] at h; cases h
      · rw [hfin] at h; cases h
      · rcases hres with hres | ⟨cause, hres⟩ <;> rw [hres] at h <;> cases h

theorem exampleEnv_midStream (s : Nat) (c : List Byte) (r : Int)
    (hpre : preCheck "piece.bin" "f01000" ⟨true, r⟩ (maxPayloadOf s) = none)
    (hlen : chunkSize ≤ c.length) (hm : ((0 + chunkSize : Nat) : Int) > maxPayloadOf s) :
    action (exampleEnv s (regularFile c r)) =
      ⟨.error (.midStream "piece.bin" r "f01000"), preCalls "f01000" "piece.bin"⟩ := by
  have hopen : Opened (exampleEnv s (regularFile c r)) "f01000" s "piece.bin"
      (regularFile c r) ⟨true, r⟩ := ⟨rfl, rfl, rfl, rfl, rfl⟩
  have hclean : NoFaults (exampleEnv s (regularFile c r)) (regularFile c r) :=
    ⟨rfl, fun _ => rfl, fun _ _ => rfl⟩
  have hloop := @hashLoop_midstream_first (exampleEnv s (regularFile c r))
    (regularFile c r) "piece.bin" "f01000" ⟨true, r⟩ (maxPayloadOf s) chunkSize hclean
    (c.length / chunkSize) 0 [] 0 0 (by simpa [regularFile] using hlen) hm
  have hb : loopBudget (regularFile c r) chunkSize = c.length / chunkSize + 1 := rfl
  rw [action_of_opened hopen]
  simp only [ingest, hpre, hb, hloop]

/-- C9, the failing run: with a payload limit of 2032 bytes, a file reported as 2000
bytes that delivers `128<<20` bytes trips the mid-stream check after the first chunk
(`bytesHashed = 134217728`), and the error reports "at least 2000 bytes", the size from
`Stat`, which is not over the limit. -/
theorem midStream_error_reports_2000 :
    maxPayloadOf 2048 = 2032 ∧
    action hugeEnv =
      ⟨.error (.midStream "piece.bin" 2000 "f01000"),
        [.actorAddress, .actorSectorSize "f01000", .openFile "piece.bin", .stat]⟩ :=
  ⟨maxPayloadOf_2048,
    exampleEnv_midStream 2048 (List.replicate chunkSize 0) 2000 (by decide)
      (by rw [List.length_replicate])
      (by rw [maxPayloadOf_2048]; unfold chunkSize; norm_num)⟩


theorem mem_digestCalls {t : List Event} {w : List Byte} {bh : Nat}
    (h : Event.digest w bh ∈ t) : (w, bh) ∈ digestCalls t := by
  induction t with
  | nil => cases h
  | cons x xs ih =>
    rcases List.mem_cons.mp h with hx | hx
    · subst hx; simp [digestCalls]
    · have := ih hx
      cases x <;> simp [digestCalls, this]

theorem action_digestCalls {env : Env} {spActor fn : String} {fh : File}
    (h : ReachesDigest env spActor fn fh) :
    digestCalls (action env).trace = [(zeroExtend fh.content, max fh.content.length 127)] := by
  rw [action_of_reachesDigest h]
  exact finish_digestCalls env fh spActor fn _ _ _

theorem mem_submissionCalls {env : Env} {spActor fn : String} {fh : File} {h : List Byte}
    {p : Nat} {cid : String} {ev : Event}
    (hev : ev ∈ submissionCalls env spActor fn fh h p cid) (hs : isSubmission ev = true) :
    ev = .sectorAddPieceToAny (unpadded p)
      (padreaderNew fh.content 0 (max fh.content.length 127)) (dealInfo env.now cid p) := by
  simp only [submissionCalls, preCalls, List.cons_append, List.nil_append, List.mem_cons,
    List.mem_singleton, List.not_mem_nil, or_false] at hev
  rcases hev with h | h | h | h | h | h | h | h | h <;> subst h <;>
    first
    | rfl
    | (simp [isSubmission] at hs)

/-- C5: whenever `fr32.Digest()` is called, the hashing loop has left by its end-of-file
`break` having read the `n` bytes of the source, and the calculator has been written
`max(n, 127)` bytes, which is at least 127 and is the value of `bytesHashed` at the
call. -/
theorem digest_sees_full_block (env : Env) (w : List Byte) (bh : Nat)
    (h : Event.digest w bh ∈ (action env).trace) :
    ∃ spActor spSecSize fn fh fhs n, Opened env spActor spSecSize fn fh fhs ∧
      hashLoop env fh fn spActor fhs (maxPayloadOf spSecSize) chunkSize
        (loopBudget fh chunkSize) 0 [] 0 0 = some (.done fh.content n n) ∧
      n = fh.content.length ∧
      w.length = max n 127 ∧ 127 ≤ w.length ∧ w.length = bh := by
  rcases action_digest_outcome env with ⟨a, f, fh, hr, _⟩ | ⟨_, _, hev⟩
  · have hmem := mem_digestCalls h
    rw [action_digestCalls hr] at hmem
    simp only [List.mem_singleton, Prod.mk.injEq] at hmem
    obtain ⟨rfl, rfl⟩ := hmem
    obtain ⟨s, i, hopen, _, hl, _⟩ := hr
    refine ⟨a, s, f, fh, i, fh.content.length, hopen, hl, rfl, zeroExtend_length _, ?_,
      zeroExtend_length _⟩
    rw [zeroExtend_length]; omega
  · have := (hev _ h).1
    simp [isDigest] at this

/-- C6 as stated fails: for a file of 127 bytes the calculator returns the padded piece
size 128, which is the `Size` of the manifest, while the size argument of the submission
call is 127. -/
theorem submitted_size_differs_from_manifest :
    ∃ size rd deal, Event.sectorAddPieceToAny size rd deal ∈ (action oneBlockEnv).trace ∧
      size = 127 ∧ deal.size = 128 ∧ size ≠ deal.size := by
  have hlen : (List.replicate 127 (9 : Byte)).length = 127 := List.length_replicate _ _
  have hz : zeroExtend (List.replicate 127 (9 : Byte)) = List.replicate 127 9 :=
    zeroExtend_of_le (by rw [hlen])
  have hd : digestStandIn (zeroExtend (List.replicate 127 (9 : Byte))) = .ok ([], 128) := by
    rw [hz]
    simp only [digestStandIn, List.length_replicate]
    rfl
  have hrun := exampleEnv_run 2048 (List.replicate 127 9) 127 (by decide)
    (Or.inl (by rw [hlen]; unfold chunkSize; norm_num)) [] 128 hd
  refine ⟨unpadded 128,
    padreaderNew (regularFile (List.replicate 127 9) 127).content 0
      (max (regularFile (List.replicate 127 9) 127).content.length 127),
    dealInfo 1700000000 "baga6ea4seaq" 128, ?_, by decide, rfl, by decide⟩
  unfold oneBlockEnv
  rw [hrun.1]
  exact List.mem_append_right _ (by simp [exampleEnv])


theorem digestStandIn_short {bs : List Byte} (h : bs.length ≤ 127) :
    digestStandIn (zeroExtend bs) = .ok ([], 128) := by
  have hl : (zeroExtend bs).length = 127 := by rw [zeroExtend_length]; omega
  simp only [digestStandIn, hl]
  rfl

theorem oneByteEnv_run :
    (action oneByteEnv).trace =
      submissionCalls oneByteEnv "f01000" "piece.bin" (regularFile [7] 1) [] 128
        "baga6ea4seaq" ∧
    (action oneByteEnv).result = .ok () :=
  exampleEnv_run 2048 [7] 1 (by decide) (Or.inr (by decide)) [] 128
    (digestStandIn_short (by decide))

/-- C5, at an instance: the one-byte file, for which 127 bytes reach the calculator. -/
theorem digest_sees_full_block_witness :
    Event.digest (zeroExtend [7]) 127 ∈ (action oneByteEnv).trace ∧
      ∃ spActor spSecSize fn fh fhs n, Opened oneByteEnv spActor spSecSize fn fh fhs ∧
        hashLoop oneByteEnv fh fn spActor fhs (maxPayloadOf spSecSize) chunkSize
          (loopBudget fh chunkSize) 0 [] 0 0 = some (.done fh.content n n) ∧
        n = fh.content.length ∧
        (zeroExtend ([7] : List Byte)).length = max n 127 ∧
        127 ≤ (zeroExtend ([7] : List Byte)).length ∧
        (zeroExtend ([7] : List Byte)).length = 127 :=
  have hmem : Event.digest (zeroExtend [7]) 127 ∈ (action oneByteEnv).trace := by
    rw [oneByteEnv_run.1]
    exact List.mem_append_right _ (by simp [regularFile])
  ⟨hmem, digest_sees_full_block oneByteEnv _ _ hmem⟩

/-- C10, the failing run: for a file of the single byte 7 the calculator is handed 127
bytes and `bytesHashed` is raised to 127, so `padreader.New(fh, 127)` appends no zero
byte; the reader handed to the submission call yields the one byte of the file, while the
size argument declares 127 bytes. -/
theorem short_input_reader_not_padded :
    (action oneByteEnv).result = .ok () ∧
    (action oneByteEnv).trace =
      [.actorAddress, .actorSectorSize "f01000", .openFile "piece.bin", .stat,
        .digest ([7] ++ List.replicate 126 0) 127, .toCID [], .seek 1,
        .padreaderNew [7] 0 127,
        .sectorAddPieceToAny 127 [7] (dealInfo 1700000000 "baga6ea4seaq" 128)] := by
  refine ⟨oneByteEnv_run.2, ?_⟩
  rw [oneByteEnv_run.1]
  decide


theorem oneBlockEnv_run :
    (action oneBlockEnv).trace =
      submissionCalls oneBlockEnv "f01000" "piece.bin"
        (regularFile (List.replicate 127 9) 127) [] 128 "baga6ea4seaq" ∧
    (action oneBlockEnv).result = .ok () :=
  exampleEnv_run 2048 (List.replicate 127 9) 127 (by decide)
    (Or.inr (by rw [List.length_replicate, maxPayloadOf_2048]; decide)) [] 128
    (digestStandIn_short (by rw [List.length_replicate]))

theorem action_submission_inv {env : Env} {ev : Event}
    (hev : ev ∈ (action env).trace) (hs : isSubmission ev = true) :
    ∃ spActor fn fh h p cid, ReachesSubmission env spActor fn fh h p cid ∧
      (action env).trace = submissionCalls env spActor fn fh h p cid ∧
      ev = .sectorAddPieceToAny (unpadded p)
        (padreaderNew fh.content 0 (max fh.content.length 127)) (dealInfo env.now cid p) := by
  rcases action_outcome env with ⟨a, f, fh, h, p, cid, hr, htr, _⟩ | ⟨_, _, hno⟩
  · rw [htr] at hev
    exact ⟨a, f, fh, h, p, cid, hr, htr, mem_submissionCalls hev hs⟩
  · rw [hno ev hev] at hs; cases hs

/-- C6, amended: the size argument of the submission call is `Unpadded()` of the padded
piece size `p` that `fr32.Digest()` returned, that is `p - p / 128`, where `p` is the
value recorded as `Size` in the manifest of the descriptor passed in the same call. -/
theorem submitted_size_is_unpadded_manifest_size (env : Env) (size : Nat)
    (rd : List Byte) (deal : PieceDealInfo)
    (h : Event.sectorAddPieceToAny size rd deal ∈ (action env).trace) :
    ∃ w bh cpHash pieceSz, Event.digest w bh ∈ (action env).trace ∧
      env.calcDigest w = .ok (cpHash, pieceSz) ∧ deal.size = pieceSz ∧
      size = unpadded pieceSz ∧ size = deal.size - deal.size / 128 := by
  obtain ⟨a, f, fh, hh, p, cid, hr, htr, hev⟩ := action_submission_inv h rfl
  simp only [Event.sectorAddPieceToAny.injEq] at hev
  obtain ⟨rfl, rfl, rfl⟩ := hev
  refine ⟨zeroExtend fh.content, max fh.content.length 127, hh, p, ?_, hr.2.1, rfl, rfl, rfl⟩
  rw [htr]
  exact List.mem_append_right _ (by simp)

/-- C6 amended, at an instance: the 127-byte file, submitted with size 127 and a
manifest size of 128. -/
theorem submitted_size_is_unpadded_manifest_size_witness :
    Event.sectorAddPieceToAny (unpadded 128)
        (padreaderNew (List.replicate 127 9) 0 (max (List.replicate 127 (9 : Byte)).length 127))
        (dealInfo 1700000000 "baga6ea4seaq" 128) ∈ (action oneBlockEnv).trace ∧
      ∃ w bh cpHash pieceSz, Event.digest w bh ∈ (action oneBlockEnv).trace ∧
        oneBlockEnv.calcDigest w = .ok (cpHash, pieceSz) ∧
        (dealInfo 1700000000 "baga6ea4seaq" 128).size = pieceSz ∧
        unpadded 128 = unpadded pieceSz ∧
        unpadded 128 = (dealInfo 1700000000 "baga6ea4seaq" 128).size -
          (dealInfo 1700000000 "baga6ea4seaq" 128).size / 128 :=
  have hmem : Event.sectorAddPieceToAny (unpadded 128)
      (padreaderNew (List.replicate 127 9) 0 (max (List.replicate 127 (9 : Byte)).length 127))
      (dealInfo 1700000000 "baga6ea4seaq" 128) ∈ (action oneBlockEnv).trace := by
    rw [oneBlockEnv_run.1]
    exact List.mem_append_right _ (by simp [regularFile, oneBlockEnv, exampleEnv])
  ⟨hmem, submitted_size_is_unpadded_manifest_size oneBlockEnv _ _ _ hmem⟩

/-- C8: on every run that reaches the submission call, the hashing left the read offset
at the end of the file, `fh.Seek(0, 0)` then moved it to 0, and the reader handed to the
submission call was constructed over the file as it was opened, at offset 0, so that it
reads the content from its first byte. -/
theorem reseek_before_submission (env : Env) (size : Nat) (rd : List Byte)
    (deal : PieceDealInfo)
    (h : Event.sectorAddPieceToAny size rd deal ∈ (action env).trace) :
    ∃ fn fh bh, env.args = [fn] ∧ env.openFile fn = .ok fh ∧
      Event.seek fh.content.length ∈ (action env).trace ∧
      Event.padreaderNew fh.content 0 bh ∈ (action env).trace ∧
      (∀ c o s, Event.padreaderNew c o s ∈ (action env).trace →
        c = fh.content ∧ o = 0 ∧ c.drop o = fh.content) ∧
      rd = (fh.content.drop 0).take bh ++ List.replicate (paddedSize bh - bh) 0 := by
  obtain ⟨a, f, fh, hh, p, cid, hr, htr, hev⟩ := action_submission_inv h rfl
  simp only [Event.sectorAddPieceToAny.injEq] at hev
  obtain ⟨_, rfl, _⟩ := hev
  obtain ⟨⟨s, i, hopen, _⟩, _⟩ := hr
  refine ⟨f, fh, max fh.content.length 127, hopen.2.2.1, hopen.2.2.2.1, ?_, ?_, ?_, rfl⟩
  · rw [htr]; exact List.mem_append_right _ (by simp)
  · rw [htr]; exact List.mem_append_right _ (by simp)
  · intro c o sz hmem
    rw [htr] at hmem
    simp only [submissionCalls, preCalls, List.cons_append, List.nil_append, List.mem_cons,
      List.mem_singleton, List.not_mem_nil, or_false] at hmem
    rcases hmem with hm | hm | hm | hm | hm | hm | hm | hm | hm <;>
      first
      | (cases hm; exact ⟨rfl, rfl, rfl⟩)
      | cases hm

/-- C8, at an instance: the 127-byte file. -/
theorem reseek_before_submission_witness :
    Event.sectorAddPieceToAny (unpadded 128)
        (padreaderNew (List.replicate 127 9) 0 (max (List.replicate 127 (9 : Byte)).length 127))
        (dealInfo 1700000000 "baga6ea4seaq" 128) ∈ (action oneBlockEnv).trace ∧
      ∃ fn fh bh, oneBlockEnv.args = [fn] ∧ oneBlockEnv.openFile fn = .ok fh ∧
        Event.seek fh.content.length ∈ (action oneBlockEnv).trace ∧
        Event.padreaderNew fh.content 0 bh ∈ (action oneBlockEnv).trace ∧
        (∀ c o s, Event.padreaderNew c o s ∈ (action oneBlockEnv).trace →
          c = fh.content ∧ o = 0 ∧ c.drop o = fh.content) ∧
        padreaderNew (List.replicate 127 9) 0 (max (List.replicate 127 (9 : Byte)).length 127) =
          (fh.content.drop 0).take bh ++ List.replicate (paddedSize bh - bh) 0 :=
  have hmem : Event.sectorAddPieceToAny (unpadded 128)
      (padreaderNew (List.replicate 127 9) 0 (max (List.replicate 127 (9 : Byte)).length 127))
      (dealInfo 1700000000 "baga6ea4seaq" 128) ∈ (action oneBlockEnv).trace := by
    rw [oneBlockEnv_run.1]
    exact List.mem_append_right _ (by simp [regularFile, oneBlockEnv, exampleEnv])
  ⟨hmem, reseek_before_submission oneBlockEnv _ _ _ hmem⟩


theorem emptyEnv_run :
    action emptyEnv = ⟨.error (.emptyFile "piece.bin"), preCalls "f01000" "piece.bin"⟩ := by
  have hopen : Opened emptyEnv "f01000" 2048 "piece.bin" (regularFile [] 0) ⟨true, 0⟩ :=
    ⟨rfl, rfl, rfl, rfl, rfl⟩
  have hpre : preCheck "piece.bin" "f01000" ⟨true, 0⟩ (maxPayloadOf 2048) =
      some (.emptyFile "piece.bin") := by decide
  rw [action_of_opened hopen]
  simp only [ingest, hpre]

/-- C7: the submission call appears at most once in the trace of a run; when it appears,
every earlier step has succeeded and it is the last call; when some earlier step has
failed, the action returns an error and the trace has no submission call; and whenever
the action returns an error other than the submission's own, the trace has no submission
call. -/
theorem fail_fast (env : Env) :
    ((action env).trace.filter isSubmission).length ≤ 1 ∧
    (∀ ev ∈ (action env).trace, isSubmission ev = true →
      (∃ spActor fn fh h p cid, ReachesSubmission env spActor fn fh h p cid) ∧
        (action env).trace.getLast? = some ev) ∧
    ((∃ spActor fn fh h p cid, ReachesSubmission env spActor fn fh h p cid) →
      ((action env).trace.filter isSubmission).length = 1) ∧
    ((¬ ∃ spActor fn fh h p cid, ReachesSubmission env spActor fn fh h p cid) →
      (∃ e, (action env).result = .error e) ∧
        ∀ ev ∈ (action env).trace, isSubmission ev = false) ∧
    (∀ e, (action env).result = .error e → (∀ cause, e ≠ .wrapped .submission cause) →
      ∀ ev ∈ (action env).trace, isSubmission ev = false) := by
  rcases action_outcome env with ⟨a, f, fh, h, p, cid, hr, htr, hres⟩ | ⟨hnr, ⟨e, he, hne⟩, hno⟩
  · have hcount : ((action env).trace.filter isSubmission).length = 1 := by
      rw [htr]
      simp [submissionCalls, preCalls, isSubmission, List.filter]
    refine ⟨by omega, ?_, fun _ => hcount, ?_, ?_⟩
    · intro ev hev hs
      refine ⟨⟨a, f, fh, h, p, cid, hr⟩, ?_⟩
      have := mem_submissionCalls (htr ▸ hev) hs
      rw [htr, this]
      simp [submissionCalls]
    · intro hn
      exact absurd ⟨a, f, fh, h, p, cid, hr⟩ hn
    · intro e he hne
      rcases hres with hok | ⟨cause, herr⟩
      · rw [hok] at he; cases he
      · rw [herr] at he
        simp only [Except.error.injEq] at he
        exact absurd he.symm (hne cause)
  · have hcount : ((action env).trace.filter isSubmission).length = 0 := by
      rw [List.length_eq_zero, List.filter_eq_nil_iff]
      intro ev hev
      rw [hno ev hev]; simp
    refine ⟨by omega, ?_, fun hr => absurd hr hnr, fun _ => ⟨⟨e, he⟩, hno⟩, fun _ _ _ => hno⟩
    intro ev hev hs
    rw [hno ev hev] at hs; cases hs

/-- C7, at an instance: the empty file is rejected by the pre-check and nothing is
submitted. -/
theorem fail_fast_witness :
    (action emptyEnv).result = .error (.emptyFile "piece.bin") ∧
      ∀ ev ∈ (action emptyEnv).trace, isSubmission ev = false :=
  have hres : (action emptyEnv).result = .error (.emptyFile "piece.bin") := by
    rw [emptyEnv_run]
  ⟨hres, (fail_fast emptyEnv).2.2.2.2 _ hres (fun _ hc => by cases hc)⟩

/-- C3: for an input `S` of 1 to 126 bytes that passes the pre-check and is read without
fault, `fr32.Digest()` is called once, when the calculator has been written exactly `S`
followed by `127 - len(S)` zero bytes, 127 bytes in all; the run on `S` zero-extended to
127 bytes calls it on the same bytes, so that the same calculator returns the same digest
and padded size for both. -/
theorem padding_floor (env env2 : Env) (spActor spActor2 fn fn2 : String)
    (spSecSize spSecSize2 : Nat) (fh fh2 : File) (fhs fhs2 : FileInfo)
    (hopen : Opened env spActor spSecSize fn fh fhs)
    (hpre : preCheck fn spActor fhs (maxPayloadOf spSecSize) = none)
    (hclean : NoFaults env fh)
    (hopen2 : Opened env2 spActor2 spSecSize2 fn2 fh2 fhs2)
    (hpre2 : preCheck fn2 spActor2 fhs2 (maxPayloadOf spSecSize2) = none)
    (hclean2 : NoFaults env2 fh2)
    (_h1 : 1 ≤ fh.content.length) (h127 : fh.content.length < 127)
    (hext : fh2.content = fh.content ++ List.replicate (127 - fh.content.length) 0)
    (hcalc : env2.calcDigest = env.calcDigest) :
    digestCalls (action env).trace =
      [(fh.content ++ List.replicate (127 - fh.content.length) 0, 127)] ∧
    (fh.content ++ List.replicate (127 - fh.content.length) 0).length = 127 ∧
    digestCalls (action env2).trace = digestCalls (action env).trace ∧
    env2.calcDigest fh2.content =
      env.calcDigest (fh.content ++ List.replicate (127 - fh.content.length) 0) := by
  have hc : (127 : Nat) < chunkSize := by unfold chunkSize; norm_num
  have hlen2 : fh2.content.length = 127 := by
    rw [hext]; simp only [List.length_append, List.length_replicate]; omega
  have hr := reachesDigest_of_clean hopen hpre hclean (Or.inl (by omega))
  have hr2 := reachesDigest_of_clean hopen2 hpre2 hclean2 (Or.inl (by omega))
  have e1 : digestCalls (action env).trace =
      [(fh.content ++ List.replicate (127 - fh.content.length) 0, 127)] := by
    rw [action_digestCalls hr]
    have : max fh.content.length 127 = 127 := by omega
    rw [this]; rfl
  have e2 : digestCalls (action env2).trace =
      [(fh.content ++ List.replicate (127 - fh.content.length) 0, 127)] := by
    rw [action_digestCalls hr2, zeroExtend_of_le (by omega), hlen2, hext]
    rfl
  refine ⟨e1, ?_, by rw [e1, e2], by rw [hcalc, hext]⟩
  simp only [List.length_append, List.length_replicate]; omega

/-- C3, at an instance: 40 bytes, and the same 40 bytes followed by 87 zero bytes. -/
theorem padding_floor_witness :
    digestCalls (action shortEnv).trace =
      [(List.replicate 40 5 ++ List.replicate (127 - (List.replicate 40 (5 : Byte)).length) 0,
        127)] ∧
    (List.replicate 40 (5 : Byte) ++
      List.replicate (127 - (List.replicate 40 (5 : Byte)).length) 0).length = 127 ∧
    digestCalls (action shortExtendedEnv).trace = digestCalls (action shortEnv).trace ∧
    shortExtendedEnv.calcDigest (List.replicate 40 5 ++ List.replicate 87 0) =
      shortEnv.calcDigest
        (List.replicate 40 5 ++ List.replicate (127 - (List.replicate 40 (5 : Byte)).length) 0) :=
  padding_floor shortEnv shortExtendedEnv "f01000" "f01000" "piece.bin" "piece.bin" 2048 2048
    (regularFile (List.replicate 40 5) 40)
    (regularFile (List.replicate 40 5 ++ List.replicate 87 0) 127) ⟨true, 40⟩ ⟨true, 127⟩
    ⟨rfl, rfl, rfl, rfl, rfl⟩ (by decide) ⟨rfl, fun _ => rfl, fun _ _ => rfl⟩
    ⟨rfl, rfl, rfl, rfl, rfl⟩ (by decide) ⟨rfl, fun _ => rfl, fun _ _ => rfl⟩
    (by decide) (by decide) (by decide) rfl


/-- The reader of a run on a file of at most 127 bytes yields the bytes of the file and
nothing else: `padreader.New` is given the size 127, for which it appends no zero byte. -/
theorem short_reader_is_content (env : Env) (size : Nat) (rd : List Byte)
    (deal : PieceDealInfo)
    (h : Event.sectorAddPieceToAny size rd deal ∈ (action env).trace) :
    ∃ fn fh, env.args = [fn] ∧ env.openFile fn = .ok fh ∧
      (fh.content.length ≤ 127 → rd = fh.content) := by
  obtain ⟨a, f, fh, hh, p, cid, hr, _, hev⟩ := action_submission_inv h rfl
  simp only [Event.sectorAddPieceToAny.injEq] at hev
  obtain ⟨_, rfl, _⟩ := hev
  obtain ⟨⟨s, i, hopen, _⟩, _⟩ := hr
  refine ⟨f, fh, hopen.2.2.1, hopen.2.2.2.1, fun hle => ?_⟩
  have hmax : max fh.content.length 127 = 127 := by omega
  have hp : paddedSize 127 = 127 := by decide
  rw [hmax]
  simp only [padreaderNew, List.drop_zero, hp, Nat.sub_self, List.replicate_zero,
    List.append_nil]
  exact List.take_of_length_le hle

/-- The model of the loop is always given enough iterations: the action never returns
the placeholder `Err.loopBudget`. -/
theorem action_within_budget (env : Env) : (action env).result ≠ .error .loopBudget := by
  intro h
  rcases action_cases env with ⟨e, t, hact, hkind, _, _⟩ | ⟨a, s, f, fh, fhs, hopen, hact⟩
  · rw [hact] at h
    simp only [Except.error.injEq] at h
    rcases hkind with hk | ⟨st, c, hk, _⟩ <;> rw [hk] at h <;> cases h
  · rcases ingest_cases env a s f fh fhs chunkSize (preCalls a f) chunkSize_pos with
      ⟨e, hp, hi⟩ | ⟨e, hp, hl, hi⟩ | ⟨e, hp, hl, hf, hi⟩ | ⟨hp, hl, hf, hi⟩
    · rw [hact, hi] at h
      simp only [Except.error.injEq] at h
      rcases preCheck_some hp with hk | hk | hk <;> rw [hk] at h <;> cases h
    · rw [hact, hi] at h
      simp only [Except.error.injEq] at h
      rcases hashLoop_failed _ _ _ _ _ e (Nat.zero_le _) hl with
        ⟨_, c, _, hk⟩ | ⟨c, hk, _⟩ | ⟨hk, _⟩ <;> rw [hk] at h <;> cases h
    · rw [hact, hi] at h
      simp only [Except.error.injEq] at h
      obtain ⟨c, hk, _⟩ := padFloor_error hf
      rw [hk] at h; cases h
    · rw [hact, hi] at h
      rcases finish_cases env fh (preCalls a f) (zeroExtend fh.content)
        (max fh.content.length 127) fh.content.length with
        ⟨cause, _, hfin⟩ | ⟨_, _, cause, _, _, hfin⟩ | ⟨_, _, _, cause, _, _, _, hfin⟩ |
        ⟨_, _, _, _, _, _, _, hres⟩
      · rw [hfin] at h; cases h
      · rw [hfin] at h; cases h
      · rw [hfin] at h; cases h
      · rcases hres with hres | ⟨cause, hres⟩ <;> rw [hres] at h <;> cases h

end FilSpToolbox
